import Mathlib

/-!
Shallow embedding of the filter-and-aggregate pipeline of
`src/app_7.py` (Telemarketing analysis).

Tables are modelled as pandas DataFrames are used by the program: an
ordered list of rows, each row tagged with its integer index label.  A
cell value is an integer, a text string, or missing (NaN).  Comparison
semantics follow pandas: a missing value satisfies no comparison in a
`query` and is never a member of an `isin` list of strings.
-/

/-- A cell value: integer, text, or missing (pandas NaN). -/
inductive Value where
  | int (n : Int)
  | str (s : String)
  | missing
deriving DecidableEq, Repr

/-- A row: a mapping from column name to value, as an association list. -/
abbrev Row := List (String × Value)

/-- Look a column up in a row; an absent column reads as missing. -/
def Row.get (r : Row) (col : String) : Value :=
  match r.find? (fun p => p.1 = col) with
  | some p => p.2
  | none => Value.missing

/-- A table: rows in order, each carrying its index label
(pandas DataFrame index). -/
abbrev Table := List (Nat × Row)

/-- `reset_index(drop=True)`: renumber the index labels from zero,
keeping the rows in order. -/
def resetIndex (t : Table) : Table :=
  (t.map Prod.snd).enum

/-- pandas `Series.isin` against a list of strings: an integer cell or a
missing cell is never a member; a string cell is a member iff it equals
one of the listed strings (exact, case-sensitive). -/
def isinStr (v : Value) (sel : List String) : Bool :=
  match v with
  | Value.str s => sel.contains s
  | _ => false

/-- `multiselect_filter` from `src/app_7.py`:
if `"all" in selecionados` return the table unchanged, else keep the rows
whose value in `col` is in `selecionados` and reset the index. -/
def multiselect_filter (relatorio : Table) (col : String) (selecionados : List String) : Table :=
  if "all" ∈ selecionados then relatorio
  else resetIndex (relatorio.filter (fun e => isinStr (Row.get e.2 col) selecionados))

/-- The row predicate of `bank.query("age >= @idades[0] and age <= @idades[1]")`:
true iff the age cell holds an integer within the closed range.  A missing
(or non-numeric) age satisfies neither comparison, as in pandas. -/
def ageInRange (lo hi : Int) (e : Nat × Row) : Bool :=
  match Row.get e.2 "age" with
  | Value.int n => decide (lo ≤ n) && decide (n ≤ hi)
  | _ => false

/-- The numeric range stage of the pipeline
(`bank.query("age >= @idades[0] and age <= @idades[1]")`).
`query` keeps the surviving rows with their original index labels. -/
def applyRange (t : Table) (lo hi : Int) : Table :=
  t.filter (ageInRange lo hi)

/-- The filter specification built in the sidebar form of `main`:
the slider's age range plus one selection list per categorical column. -/
structure FilterSpec where
  minAge : Int
  maxAge : Int
  jobs_selected : List String
  marital_selected : List String
  default_selected : List String
  housing_selected : List String
  loan_selected : List String
  contact_selected : List String
  month_selected : List String
  day_of_week_selected : List String
deriving DecidableEq, Repr

/-- The filter pipeline of `main` (lines 132-142): the age-range query
followed by the eight categorical filters in their declared order. -/
def filterPipeline (t : Table) (s : FilterSpec) : Table :=
  multiselect_filter
    (multiselect_filter
      (multiselect_filter
        (multiselect_filter
          (multiselect_filter
            (multiselect_filter
              (multiselect_filter
                (multiselect_filter
                  (applyRange t s.minAge s.maxAge)
                  "job" s.jobs_selected)
                "marital" s.marital_selected)
              "default" s.default_selected)
            "housing" s.housing_selected)
          "loan" s.loan_selected)
        "contact" s.contact_selected)
      "month" s.month_selected)
    "day_of_week" s.day_of_week_selected

/-- The identity FilterSpec of the spec: a numeric range and every
categorical selection equal to the singleton `["all"]`. -/
def identitySpec (lo hi : Int) : FilterSpec :=
  ⟨lo, hi, ["all"], ["all"], ["all"], ["all"], ["all"], ["all"], ["all"], ["all"]⟩

/-- The non-missing integer ages observed in a table, in row order
(the values over which `bank["age"].min()` / `.max()` range). -/
def agesOf (t : Table) : List Int :=
  t.filterMap (fun e =>
    match Row.get e.2 "age" with
    | Value.int n => some n
    | _ => none)

/-- The matching relation of the spec's `applySelection` restriction
branch: the row's value in the column is a member of the selection
(exact, case-sensitive string equality; a missing value never matches). -/
def specMatches (v : Value) (sel : List String) : Prop :=
  ∃ s, v = Value.str s ∧ s ∈ sel

instance (v : Value) (sel : List String) : Decidable (specMatches v sel) := by
  unfold specMatches
  cases v with
  | int n => exact Decidable.isFalse (by simp)
  | str s =>
      exact decidable_of_iff (s ∈ sel) (by simp)
  | missing => exact Decidable.isFalse (by simp)

theorem isinStr_eq_specMatches (v : Value) (sel : List String) :
    isinStr v sel = true ↔ specMatches v sel := by
  cases v with
  | int n => simp [isinStr, specMatches]
  | str s => simp [isinStr, specMatches]
  | missing => simp [isinStr, specMatches]

theorem isinStr_eq_decide (v : Value) (sel : List String) :
    isinStr v sel = decide (specMatches v sel) := by
  have h := isinStr_eq_specMatches v sel
  rcases hb : isinStr v sel
  · rw [hb] at h
    simp at h
    simp [h]
  · rw [hb] at h
    simp at h
    simp [h]

theorem multiselect_filter_all (t : Table) (col : String) (sel : List String)
    (h : "all" ∈ sel) : multiselect_filter t col sel = t := by
  simp [multiselect_filter, h]

theorem multiselect_filter_restrict (t : Table) (col : String) (sel : List String)
    (h : "all" ∉ sel) :
    multiselect_filter t col sel
      = resetIndex (t.filter (fun e => isinStr (Row.get e.2 col) sel)) := by
  simp [multiselect_filter, h]

theorem resetIndex_rows (l : List Row) : resetIndex (l.enum) = l.enum := by
  simp [resetIndex]

theorem resetIndex_snd (t : Table) : (resetIndex t).map Prod.snd = t.map Prod.snd := by
  simp [resetIndex]

theorem resetIndex_fst (t : Table) :
    (resetIndex t).map Prod.fst = List.range (resetIndex t).length := by
  simp [resetIndex, List.enum_map_fst, List.enum_map_snd]

/-- The spec's in-range relation for an age cell: the value is a
(non-missing) integer lying within the closed range `[lo, hi]`. -/
def ageWithin (lo hi : Int) (v : Value) : Prop :=
  ∃ n, v = Value.int n ∧ lo ≤ n ∧ n ≤ hi

instance (lo hi : Int) (v : Value) : Decidable (ageWithin lo hi v) := by
  unfold ageWithin
  cases v with
  | int n => exact decidable_of_iff (lo ≤ n ∧ n ≤ hi) (by simp)
  | str s => exact Decidable.isFalse (by simp)
  | missing => exact Decidable.isFalse (by simp)

theorem ageInRange_iff (lo hi : Int) (e : Nat × Row) :
    ageInRange lo hi e = true ↔ ageWithin lo hi (Row.get e.2 "age") := by
  cases h : Row.get e.2 "age" with
  | int n => simp [ageInRange, h, ageWithin]
  | str s => simp [ageInRange, h, ageWithin]
  | missing => simp [ageInRange, h, ageWithin]

/-- C3: the numeric range filter on the age column keeps exactly the rows
whose age value is an integer `n` with `lo ≤ n ≤ hi` (both bounds
inclusive), as an order-preserving sublist; a row whose age is missing
(or not a number) is never kept. -/
theorem applyRange_keeps_exactly (t : Table) (lo hi : Int) :
    List.Sublist (applyRange t lo hi) t
    ∧ ∀ e : Nat × Row, e ∈ applyRange t lo hi ↔
        e ∈ t ∧ ∃ n : Int, Row.get e.2 "age" = Value.int n ∧ lo ≤ n ∧ n ≤ hi := by
  constructor
  · exact List.filter_sublist t
  · intro e
    rw [applyRange, List.mem_filter, ageInRange_iff]
    rfl

/-- C9: whenever the sentinel `"all"` is a member of the selection list —
even alongside other explicitly chosen values — the categorical filter
returns the table unchanged; the other values are ignored. -/
theorem multiselect_filter_sentinel_member (t : Table) (col : String)
    (sel : List String) (h : "all" ∈ sel) : multiselect_filter t col sel = t :=
  multiselect_filter_all t col sel h

def T9 : Table :=
  [(0, [("job", Value.str "admin")]), (1, [("job", Value.str "technician")])]

/-- Witness for C9: with the selection `["technician", "all"]` — the
sentinel alongside an explicit value — the filter returns the table
unchanged, ignoring the explicit value. -/
theorem multiselect_filter_sentinel_member_witness :
    "all" ∈ (["technician", "all"] : List String)
    ∧ multiselect_filter T9 "job" ["technician", "all"] = T9 :=
  ⟨by decide, multiselect_filter_sentinel_member T9 "job" ["technician", "all"] (by decide)⟩

/-- C2: the categorical filter returns the table unchanged when the
selection is the `"all"` sentinel; otherwise its rows are exactly those
whose value in the column is a member of the selection (exact,
case-sensitive string equality, missing never matches), in their original
relative order, and the result's index labels are renumbered from zero;
an empty selection yields the empty table. -/
theorem multiselect_filter_spec (t : Table) (col : String) (sel : List String) :
    ("all" ∈ sel → multiselect_filter t col sel = t)
    ∧ ("all" ∉ sel →
        (multiselect_filter t col sel).map Prod.snd
          = (t.map Prod.snd).filter (fun r => decide (specMatches (Row.get r col) sel))
        ∧ (multiselect_filter t col sel).map Prod.fst
          = List.range (multiselect_filter t col sel).length)
    ∧ (sel = [] → multiselect_filter t col sel = []) := by
  refine ⟨fun h => multiselect_filter_all t col sel h, fun h => ?_, fun h => ?_⟩
  · rw [multiselect_filter_restrict t col sel h]
    refine ⟨?_, resetIndex_fst _⟩
    rw [resetIndex_snd, List.filter_map]
    have hp : (fun e : Nat × Row => isinStr (Row.get e.2 col) sel)
        = ((fun r : Row => decide (specMatches (Row.get r col) sel)) ∘ Prod.snd) := by
      funext e
      simp [Function.comp, isinStr_eq_decide]
    rw [hp]
  · subst h
    rw [multiselect_filter_restrict t col [] (by simp)]
    have hnil : t.filter (fun e => isinStr (Row.get e.2 col) []) = [] := by
      apply List.filter_eq_nil_iff.mpr
      intro e _
      cases hv : Row.get e.2 col <;> simp [isinStr]
    rw [hnil]
    rfl

def T2 : Table :=
  [(0, [("job", Value.str "admin")]),
   (1, [("job", Value.str "technician")]),
   (2, [("job", Value.missing)])]

/-- Witness for C2: a three-row table filtered on `job` with the explicit
selection `["admin"]` keeps exactly the matching row, renumbered from
zero, and the empty selection yields the empty table. -/
theorem multiselect_filter_spec_witness :
    ("all" ∉ (["admin"] : List String)
      ∧ (multiselect_filter T2 "job" ["admin"]).map Prod.snd
          = (T2.map Prod.snd).filter (fun r => decide (specMatches (Row.get r "job") ["admin"]))
      ∧ (multiselect_filter T2 "job" ["admin"]).map Prod.fst
          = List.range (multiselect_filter T2 "job" ["admin"]).length)
    ∧ multiselect_filter T2 "job" [] = [] :=
  ⟨⟨by decide, (multiselect_filter_spec T2 "job" ["admin"]).2.1 (by decide)⟩,
    (multiselect_filter_spec T2 "job" []).2.2 rfl⟩

def T1ce : Table := [(0, [("age", Value.int 30)]), (1, [("age", Value.missing)])]

/-- Counterexample to C1 as stated: `T1ce` has observed ages `[30]`, so
the full observed age range is `[30, 30]`; yet the pipeline with the
identity FilterSpec over that range drops the row whose age is missing
(pandas `query` comparisons are false on NaN), so the result is not equal
to the input table. -/
theorem identity_pipeline_counterexample :
    agesOf T1ce = [30]
    ∧ filterPipeline T1ce (identitySpec 30 30) ≠ T1ce := by
  constructor
  · rfl
  · decide

/-- C1 (amended): for every table in which every row's age value is a
non-missing integer within `[lo, hi]` — in particular, for a table with
no missing ages and `[lo, hi]` its full observed range — the pipeline
with the identity FilterSpec (that range, every selection `["all"]`)
returns the table unchanged, row-for-row and in order. -/
theorem identity_pipeline (t : Table) (lo hi : Int)
    (h : ∀ e ∈ t, ageWithin lo hi (Row.get e.2 "age")) :
    filterPipeline t (identitySpec lo hi) = t := by
  have hr : applyRange t lo hi = t := by
    apply List.filter_eq_self.mpr
    intro e he
    exact (ageInRange_iff lo hi e).mpr (h e he)
  simp [filterPipeline, identitySpec, multiselect_filter, hr]

def T1w : Table :=
  [(0, [("age", Value.int 30), ("job", Value.str "admin")]),
   (1, [("age", Value.int 45), ("job", Value.str "services")])]

/-- Witness for the amended C1: a two-row table with ages 30 and 45, all
present, passes the identity pipeline over the range `[30, 45]`
unchanged. -/
theorem identity_pipeline_witness :
    (∀ e ∈ T1w, ageWithin 30 45 (Row.get e.2 "age"))
    ∧ filterPipeline T1w (identitySpec 30 45) = T1w :=
  ⟨by decide, identity_pipeline T1w 30 45 (by decide)⟩

/-- The pandas Series `t[col]`: the column's values in row order. -/
def colVals (t : Table) (col : String) : List Value :=
  t.map (fun e => Row.get e.2 col)

/-- Drop missing values, as `value_counts` does (NaN excluded from both
the numerator and the denominator). -/
def nonMissing (l : List Value) : List Value :=
  l.filter (fun v => v ≠ Value.missing)

/-- Lexicographic comparison of character lists by code point. -/
def charListLE : List Char → List Char → Bool
  | [], _ => true
  | _ :: _, [] => false
  | a :: as, b :: bs => if a = b then charListLE as bs else decide (a.toNat < b.toNat)

/-- String comparison used to model `sort_index` on string categories. -/
def strLE (a b : String) : Bool :=
  charListLE a.data b.data

/-- Value ordering for `sort_index`: integers by magnitude, strings
lexicographically (a homogeneous pandas index only ever compares values
of one kind). -/
def valLE : Value → Value → Bool
  | Value.int a, Value.int b => decide (a ≤ b)
  | Value.int _, _ => true
  | Value.str _, Value.int _ => false
  | Value.str a, Value.str b => strLE a b
  | Value.str _, Value.missing => true
  | Value.missing, Value.missing => true
  | Value.missing, _ => false

def insertVal (x : Value) : List Value → List Value
  | [] => [x]
  | y :: ys => if valLE x y then x :: y :: ys else y :: insertVal x ys

/-- Insertion sort of the distinct category values (`sort_index`). -/
def sortVals : List Value → List Value
  | [] => []
  | x :: xs => insertVal x (sortVals xs)

/-- `value_counts(normalize=True).sort_index() * 100` over the listed
values: each distinct value, in sorted order, paired with its relative
frequency as a percentage (exact rational arithmetic models the float
computation). -/
def valueCounts100 (vs : List Value) : List (Value × ℚ) :=
  (sortVals vs.dedup).map (fun v => (v, (vs.count v : ℚ) / (vs.length : ℚ) * 100))

/-- The proportion summary of `main` (lines 156 and 161):
`(t[col].value_counts(normalize=True).sort_index() * 100)`. -/
def summarize (t : Table) (col : String) : List (Value × ℚ) :=
  valueCounts100 (nonMissing (colVals t col))

theorem insertVal_perm (x : Value) (l : List Value) :
    List.Perm (insertVal x l) (x :: l) := by
  induction l with
  | nil => exact List.Perm.refl _
  | cons y ys ih =>
      by_cases h : valLE x y
      · simp [insertVal, h]
      · simp only [insertVal, h, if_neg, Bool.false_eq_true, not_false_eq_true]
        exact (ih.cons y).trans (List.Perm.swap x y ys)

theorem sortVals_perm (l : List Value) : List.Perm (sortVals l) l := by
  induction l with
  | nil => exact List.Perm.refl _
  | cons x xs ih => exact (insertVal_perm x (sortVals xs)).trans (ih.cons x)

theorem valueCounts100_sum (vs : List Value) (h : vs ≠ []) :
    ((valueCounts100 vs).map Prod.snd).sum = 100 := by
  have hn : (vs.length : ℚ) ≠ 0 := by
    have : vs.length ≠ 0 := by
      simpa [List.length_eq_zero] using h
    exact_mod_cast this
  unfold valueCounts100
  rw [List.map_map]
  have hperm := (sortVals_perm vs.dedup).map
    (Prod.snd ∘ fun v => (v, (vs.count v : ℚ) / (vs.length : ℚ) * 100))
  rw [hperm.sum_eq]
  have hf : (Prod.snd ∘ fun v => (v, (vs.count v : ℚ) / (vs.length : ℚ) * 100))
      = fun v => (vs.count v : ℚ) * (100 / (vs.length : ℚ)) := by
    funext v
    simp [Function.comp]
    field_simp
  rw [hf, List.sum_map_mul_right]
  have hcast : (vs.dedup.map fun v => ((vs.count v : ℕ) : ℚ)).sum
      = (((vs.dedup.map fun v => vs.count v).sum : ℕ) : ℚ) := by
    rw [Nat.cast_list_sum, List.map_map]
    rfl
  rw [hcast, List.sum_map_count_dedup_eq_length]
  field_simp

theorem valueCounts100_bounds (vs : List Value) (p : Value × ℚ)
    (hp : p ∈ valueCounts100 vs) : 0 ≤ p.2 ∧ p.2 ≤ 100 := by
  unfold valueCounts100 at hp
  obtain ⟨v, hv, rfl⟩ := List.mem_map.mp hp
  have hv' : v ∈ vs.dedup := (sortVals_perm vs.dedup).mem_iff.mp hv
  have hmem : v ∈ vs := List.mem_dedup.mp hv'
  have hlenpos : 0 < (vs.length : ℚ) := by
    have : 0 < vs.length := List.length_pos.mpr (List.ne_nil_of_mem hmem)
    exact_mod_cast this
  have hcle : (vs.count v : ℚ) ≤ (vs.length : ℚ) := by
    exact_mod_cast List.count_le_length v vs
  constructor
  · have h0 : (0 : ℚ) ≤ (vs.count v : ℚ) := by positivity
    have := div_nonneg h0 (le_of_lt hlenpos)
    simpa using mul_nonneg this (by norm_num : (0 : ℚ) ≤ 100)
  · have hdiv : (vs.count v : ℚ) / (vs.length : ℚ) ≤ 1 :=
      (div_le_one hlenpos).mpr hcle
    calc (vs.count v : ℚ) / (vs.length : ℚ) * 100
        ≤ 1 * 100 := by
          exact mul_le_mul_of_nonneg_right hdiv (by norm_num)
      _ = 100 := by norm_num

def T4ce : Table := [(0, [("y", Value.missing)])]

/-- Counterexample to C4 as stated: a non-empty table whose only `y`
value is missing has an empty proportion summary, so the percentages sum
to 0, which is not within 1e-6 of 100. -/
theorem summarize_sum_counterexample :
    T4ce ≠ []
    ∧ ¬ (|((summarize T4ce "y").map Prod.snd).sum - 100| ≤ 1 / 1000000) := by
  constructor
  · simp [T4ce]
  · have hs : summarize T4ce "y" = [] := rfl
    rw [hs]
    norm_num

/-- C4 (amended): for every table with at least one non-missing `y`
value, the proportion summary of `y` assigns each entry a percentage
between 0 and 100, and the percentages sum to exactly 100 (hence within
any 1e-6 tolerance). -/
theorem summarize_percentages (t : Table)
    (h : nonMissing (colVals t "y") ≠ []) :
    (∀ p ∈ summarize t "y", 0 ≤ p.2 ∧ p.2 ≤ 100)
    ∧ ((summarize t "y").map Prod.snd).sum = 100 :=
  ⟨fun p hp => valueCounts100_bounds _ p hp, valueCounts100_sum _ h⟩

def T4w : Table :=
  [(0, [("y", Value.str "yes")]),
   (1, [("y", Value.str "no")]),
   (2, [("y", Value.str "no")]),
   (3, [("y", Value.missing)])]

/-- Witness for the amended C4: on a table with `y` values
`[yes, no, no, missing]` the summary percentages all lie in `[0, 100]`
and sum to 100. -/
theorem summarize_percentages_witness :
    nonMissing (colVals T4w "y") ≠ []
    ∧ ((∀ p ∈ summarize T4w "y", 0 ≤ p.2 ∧ p.2 ≤ 100)
        ∧ ((summarize T4w "y").map Prod.snd).sum = 100) :=
  ⟨by decide, summarize_percentages T4w (by decide)⟩

/-- C10: a (non-empty) table whose `y` column is entirely missing has the
empty proportion summary — missing values are excluded from numerator and
denominator alike — so the percentages sum to 0. -/
theorem summarize_all_missing (t : Table) (_h1 : t ≠ [])
    (h2 : ∀ e ∈ t, Row.get e.2 "y" = Value.missing) :
    summarize t "y" = [] ∧ ((summarize t "y").map Prod.snd).sum = 0 := by
  have hnm : nonMissing (colVals t "y") = [] := by
    apply List.filter_eq_nil_iff.mpr
    intro v hv
    obtain ⟨e, he, rfl⟩ := List.mem_map.mp hv
    simp [h2 e he]
  have hs : summarize t "y" = [] := by
    unfold summarize
    rw [hnm]
    rfl
  exact ⟨hs, by rw [hs]; rfl⟩

def T10w : Table :=
  [(0, [("age", Value.int 30), ("y", Value.missing)]),
   (1, [("age", Value.int 40), ("y", Value.missing)])]

/-- Witness for C10: a two-row table with both `y` values missing has the
empty summary. -/
theorem summarize_all_missing_witness :
    T10w ≠ []
    ∧ (∀ e ∈ T10w, Row.get e.2 "y" = Value.missing)
    ∧ (summarize T10w "y" = [] ∧ ((summarize T10w "y").map Prod.snd).sum = 0) :=
  ⟨by decide, by decide, summarize_all_missing T10w (by decide) (by decide)⟩

/-- The report step of `main` (lines 146-159): when the filtered table is
empty, the filtered-side summary is a copy of the raw table's summary and
the fallback is disclosed (`st.warning` / `st.info`), modelled by the
Boolean flag; otherwise the filtered table itself is summarized and no
fallback is flagged. -/
def reportedSummary (bank_raw bank : Table) : List (Value × ℚ) × Bool :=
  if bank = [] then (summarize bank_raw "y", true)
  else (summarize bank "y", false)

/-- C5: whenever the filter pipeline yields an empty table, the reported
filtered-side summary equals the proportion summary of the original
unfiltered table, and the fallback flag is surfaced to the caller. -/
theorem pipeline_empty_fallback (bank_raw : Table) (s : FilterSpec)
    (h : filterPipeline bank_raw s = []) :
    reportedSummary bank_raw (filterPipeline bank_raw s)
      = (summarize bank_raw "y", true) := by
  rw [h]
  rfl

def T5raw : Table :=
  [(0, [("age", Value.int 30), ("y", Value.str "yes")]),
   (1, [("age", Value.int 31), ("y", Value.str "no")]),
   (2, [("age", Value.int 32), ("y", Value.str "no")]),
   (3, [("age", Value.int 33), ("y", Value.str "yes")]),
   (4, [("age", Value.int 34), ("y", Value.str "no")])]

def S5 : FilterSpec :=
  ⟨0, 0, ["all"], ["all"], ["all"], ["all"], ["all"], ["all"], ["all"], ["all"]⟩

/-- Witness for C5, the spec's fallback scenario: raw `y` values
`[yes, no, no, yes, no]` and an age range matching no rows; the reported
summary is the raw 60/40 split with the fallback flag set. -/
theorem pipeline_empty_fallback_witness :
    filterPipeline T5raw S5 = []
    ∧ reportedSummary T5raw (filterPipeline T5raw S5) = (summarize T5raw "y", true)
    ∧ summarize T5raw "y" = [(Value.str "no", 60), (Value.str "yes", 40)] :=
  ⟨by decide, pipeline_empty_fallback T5raw S5 (by decide), by
    have h : summarize T5raw "y"
        = [(Value.str "no", ((3 : ℕ) : ℚ) / ((5 : ℕ) : ℚ) * 100),
           (Value.str "yes", ((2 : ℕ) : ℚ) / ((5 : ℕ) : ℚ) * 100)] := rfl
    rw [h]
    norm_num⟩

/-- An uploaded byte stream with its read position (the `file_data`
argument of `load_data`; `seek(0)` rewinds `pos`). -/
structure FStream where
  data : List Nat
  pos : Nat
deriving DecidableEq, Repr

/-- A format reader (`pd.read_csv` with `sep=";"`, `pd.read_excel`):
from the stream's current position it either produces a table (and a
final position) or raises, modelled as `Except.error`. -/
abbrev ParseFn := FStream → Except String (Table × FStream)

/-- `file_data.seek(0)`. -/
def seek0 (s : FStream) : FStream := { s with pos := 0 }

/-- `load_data` from `src/app_7.py`: try `pd.read_csv(file_data, sep=";")`;
on any exception, `file_data.seek(0)` and return `pd.read_excel(file_data)`.
A failure of the second reader propagates as the single surfaced error. -/
def load_data (read_csv read_excel : ParseFn) (file_data : FStream) :
    Except String Table :=
  match read_csv file_data with
  | Except.ok (t, _) => Except.ok t
  | Except.error _ =>
    match read_excel (seek0 file_data) with
    | Except.ok (t, _) => Except.ok t
    | Except.error e => Except.error e

/-- C6: the loader first attempts the semicolon-CSV reader; if that
raises, it rewinds the stream to position zero and attempts the
spreadsheet reader; if both raise, it surfaces exactly the single error
of the second attempt — no further format is tried. -/
theorem load_data_fallback (read_csv read_excel : ParseFn) (s : FStream) :
    (∀ t s', read_csv s = Except.ok (t, s') →
        load_data read_csv read_excel s = Except.ok t)
    ∧ (∀ e t s', read_csv s = Except.error e →
        read_excel (seek0 s) = Except.ok (t, s') →
        load_data read_csv read_excel s = Except.ok t)
    ∧ (∀ e e', read_csv s = Except.error e →
        read_excel (seek0 s) = Except.error e' →
        load_data read_csv read_excel s = Except.error e') := by
  refine ⟨?_, ?_, ?_⟩
  · intro t s' h
    simp [load_data, h]
  · intro e t s' h1 h2
    simp [load_data, h1, h2]
  · intro e e' h1 h2
    simp [load_data, h1, h2]

def T6w : Table := [(0, [("age", Value.int 30), ("y", Value.str "no")])]

def csvFail : ParseFn := fun _ => Except.error "csv parse error"

def excelAtStart : ParseFn := fun s =>
  if s.pos = 0 then Except.ok (T6w, s) else Except.error "excel parse error"

def S6 : FStream := ⟨[1, 2, 3], 7⟩

/-- Witness for C6: a stream left at position 7 by a failed CSV attempt
is rewound to position 0, where the spreadsheet reader succeeds, so the
loader returns its table. -/
theorem load_data_fallback_witness :
    csvFail S6 = Except.error "csv parse error"
    ∧ excelAtStart (seek0 S6) = Except.ok (T6w, seek0 S6)
    ∧ load_data csvFail excelAtStart S6 = Except.ok T6w :=
  ⟨rfl, rfl,
    (load_data_fallback csvFail excelAtStart S6).2.1
      "csv parse error" T6w (seek0 S6) rfl rfl⟩

/-- A character the csv QUOTE_MINIMAL policy quotes a field for:
the comma separator, the quote character, or a line break. -/
def isCsvSpecial (c : Char) : Bool :=
  c = ',' || c = '"' || c = '\n' || c = '\r'

/-- A character ending an unquoted field: the separator or the
record terminator. -/
def fieldEnd (c : Char) : Bool :=
  c = ',' || c = '\n'

/-- Double every quote character, as csv quoting does inside a
quoted field. -/
def escapeQuotes : List Char → List Char
  | [] => []
  | c :: cs => if c = '"' then '"' :: '"' :: escapeQuotes cs else c :: escapeQuotes cs

/-- Serialize one field under QUOTE_MINIMAL: quote (and escape) exactly
when the field contains a separator, a quote, or a line break. -/
def writeField (s : List Char) : List Char :=
  if s.any isCsvSpecial then '"' :: (escapeQuotes s ++ ['"']) else s

/-- Serialize one record: fields separated by commas. -/
def writeRecord : List (List Char) → List Char
  | [] => []
  | [f] => writeField f
  | f :: fs => writeField f ++ ',' :: writeRecord fs

/-- One output line: a record followed by the line terminator. -/
def writeLine (r : List (List Char)) : List Char :=
  writeRecord r ++ ['\n']

/-- The full delimited-text serialization: one line per record. -/
def writeCsv (m : List (List (List Char))) : List Char :=
  (m.map writeLine).flatten

/-- How a cell prints in the csv output: integers in decimal, strings
verbatim, missing (NaN) as the empty field. -/
def renderCell : Value → List Char
  | Value.int n => (toString n).data
  | Value.str s => s.data
  | Value.missing => []

/-- The cell matrix `df.to_csv(index=False)` serializes: the header row
of column names followed by each data row's rendered cells — the row
index labels appear nowhere. -/
def csvMatrix (cols : List String) (t : Table) : List (List (List Char)) :=
  (cols.map String.data) :: t.map (fun e => cols.map (fun c => renderCell (Row.get e.2 c)))

/-- `df.to_csv(index=False)` from `convert_df_to_csv_bytes`: the
comma-separated text with header and without the index column. -/
def df_to_csv (cols : List String) (t : Table) : List Char :=
  writeCsv (csvMatrix cols t)

/-- UTF-8 encoding of one code point. -/
def utf8EncodeChar (n : Nat) : List Nat :=
  if n < 0x80 then [n]
  else if n < 0x800 then [0xC0 + n / 64, 0x80 + n % 64]
  else if n < 0x10000 then
    [0xE0 + n / 4096, 0x80 + (n / 64) % 64, 0x80 + n % 64]
  else
    [0xF0 + n / 262144, 0x80 + (n / 4096) % 64, 0x80 + (n / 64) % 64, 0x80 + n % 64]

/-- `.encode("utf-8")` of a character sequence. -/
def utf8Encode (s : List Char) : List Nat :=
  (s.map (fun c => utf8EncodeChar c.toNat)).flatten

/-- `convert_df_to_csv_bytes` from `src/app_7.py`:
`df.to_csv(index=False).encode("utf-8")`. -/
def convert_df_to_csv_bytes (cols : List String) (t : Table) : List Nat :=
  utf8Encode (df_to_csv cols t)

/-- One UTF-8 decoding step per unit of fuel: classify the lead byte,
reassemble the code point from the continuation bytes, and continue after
them (a malformed sequence decodes to replacement data; the serializer
never emits one). -/
def utf8DecodeF : Nat → List Nat → List Char
  | 0, _ => []
  | _ + 1, [] => []
  | fuel + 1, b1 :: rest =>
      if b1 < 0x80 then Char.ofNat b1 :: utf8DecodeF fuel rest
      else if b1 < 0xC0 then Char.ofNat 0xFFFD :: utf8DecodeF fuel rest
      else if b1 < 0xE0 then
        Char.ofNat ((b1 - 0xC0) * 64 + (rest.headD 0 - 0x80))
          :: utf8DecodeF fuel (rest.drop 1)
      else if b1 < 0xF0 then
        Char.ofNat ((b1 - 0xE0) * 4096 + (rest.headD 0 - 0x80) * 64
              + ((rest.drop 1).headD 0 - 0x80))
          :: utf8DecodeF fuel (rest.drop 2)
      else
        Char.ofNat ((b1 - 0xF0) * 262144 + (rest.headD 0 - 0x80) * 4096
              + ((rest.drop 1).headD 0 - 0x80) * 64 + ((rest.drop 2).headD 0 - 0x80))
          :: utf8DecodeF fuel (rest.drop 3)

/-- UTF-8 decoding back to characters (each lead byte consumes one unit
of fuel, so the byte count is always enough fuel). -/
def utf8Decode (bs : List Nat) : List Char :=
  utf8DecodeF bs.length bs

/-- Parse the inside of a quoted field, the opening quote already
consumed: a doubled quote is one literal quote, a lone closing quote
ends the field. -/
def parseQuoted : List Char → List Char × List Char
  | [] => ([], [])
  | c :: rest =>
      if c = '"' then
        match rest with
        | r :: rest2 =>
            if r = '"' then
              let p := parseQuoted rest2
              ('"' :: p.1, p.2)
            else ([], rest)
        | [] => ([], [])
      else
        let p := parseQuoted rest
        (c :: p.1, p.2)

/-- Parse one field: a leading quote starts a quoted field, otherwise
the field runs to the next separator or line break. -/
def parseFieldRaw (cs : List Char) : List Char × List Char :=
  match cs with
  | [] => ([], [])
  | c :: rest =>
      if c = '"' then parseQuoted rest
      else ((c :: rest).takeWhile (fun d => !fieldEnd d),
            (c :: rest).dropWhile (fun d => !fieldEnd d))

/-- Parse one record (fuelled by the number of fields): fields separated
by commas, ended by a line break or the end of input. -/
def parseRecordF : Nat → List Char → List (List Char) × List Char
  | 0, cs => ([], cs)
  | fuel + 1, cs =>
      let p := parseFieldRaw cs
      match p.2 with
      | [] => ([p.1], [])
      | c :: rest2 =>
          if c = ',' then
            let q := parseRecordF fuel rest2
            (p.1 :: q.1, q.2)
          else if c = '\n' then ([p.1], rest2)
          else ([p.1], [])

/-- Parse a record sequence (fuelled by the number of records). -/
def parseCsvF : Nat → List Char → List (List (List Char))
  | 0, _ => []
  | fuel + 1, cs =>
      if cs = [] then []
      else
        let p := parseRecordF (cs.length + 1) cs
        p.1 :: parseCsvF fuel p.2

/-- Re-parse delimited text with comma separator: the record list. -/
def parseCsv (cs : List Char) : List (List (List Char)) :=
  parseCsvF (cs.length + 1) cs

theorem parseQuoted_escape (s rest : List Char) (h : ∀ r, rest ≠ '"' :: r) :
    parseQuoted (escapeQuotes s ++ '"' :: rest) = (s, rest) := by
  induction s with
  | nil =>
      cases rest with
      | nil => rfl
      | cons r rs =>
          have hr : r ≠ '"' := fun he => h rs (by rw [he])
          simp [escapeQuotes, parseQuoted, hr]
  | cons c s' ih =>
      by_cases hc : c = '"'
      · subst hc
        simp [escapeQuotes, parseQuoted, ih]
      · have hstep : parseQuoted (c :: (escapeQuotes s' ++ '"' :: rest))
            = (c :: (parseQuoted (escapeQuotes s' ++ '"' :: rest)).1,
               (parseQuoted (escapeQuotes s' ++ '"' :: rest)).2) := by
          rw [parseQuoted.eq_def]
          simp [hc]
        simp [escapeQuotes, hc, hstep, ih]

theorem takeWhile_fieldEnd (s rest : List Char)
    (hs : ∀ c ∈ s, fieldEnd c = false)
    (hr : rest = [] ∨ ∃ r', rest = ',' :: r' ∨ rest = '\n' :: r') :
    (s ++ rest).takeWhile (fun d => !fieldEnd d) = s
    ∧ (s ++ rest).dropWhile (fun d => !fieldEnd d) = rest := by
  induction s with
  | nil =>
      simp only [List.nil_append]
      rcases hr with h0 | ⟨r', h1 | h1⟩
      · subst h0; simp
      · subst h1; simp [List.takeWhile_cons, List.dropWhile_cons, fieldEnd]
      · subst h1; simp [List.takeWhile_cons, List.dropWhile_cons, fieldEnd]
  | cons c s' ih =>
      have hc : fieldEnd c = false := hs c (by simp)
      have ih' := ih (fun d hd => hs d (by simp [hd]))
      simp [List.takeWhile_cons, List.dropWhile_cons, hc, ih'.1, ih'.2]

theorem parseFieldRaw_writeField (s rest : List Char)
    (hr : rest = [] ∨ ∃ r', rest = ',' :: r' ∨ rest = '\n' :: r') :
    parseFieldRaw (writeField s ++ rest) = (s, rest) := by
  by_cases hq : s.any isCsvSpecial
  · have hrq : ∀ r, rest ≠ '"' :: r := by
      intro r hcon
      rcases hr with h0 | ⟨r', h1 | h1⟩
      · rw [h0] at hcon; exact absurd hcon (by simp)
      · rw [h1] at hcon
        have : ',' = '"' := (List.cons.injEq _ _ _ _ ▸ hcon).1
        exact absurd this (by decide)
      · rw [h1] at hcon
        have : '\n' = '"' := (List.cons.injEq _ _ _ _ ▸ hcon).1
        exact absurd this (by decide)
    have hwf : writeField s = '"' :: (escapeQuotes s ++ ['"']) := by
      simp [writeField, hq]
    rw [hwf]
    have hassoc : ('"' :: (escapeQuotes s ++ ['"'])) ++ rest
        = '"' :: (escapeQuotes s ++ '"' :: rest) := by simp
    rw [hassoc]
    simp only [parseFieldRaw, if_pos rfl]
    exact parseQuoted_escape s rest hrq
  · have hspec : ∀ d ∈ s, isCsvSpecial d = false := by
      intro d hd
      rcases hb : isCsvSpecial d
      · rfl
      · exact absurd (List.any_eq_true.mpr ⟨d, hd, hb⟩) hq
    have hs : ∀ c ∈ s, fieldEnd c = false := by
      intro c hc
      have h1 := hspec c hc
      rcases hb : fieldEnd c
      · rfl
      · exfalso
        simp [fieldEnd] at hb
        simp [isCsvSpecial] at h1
        rcases hb with hb | hb <;> simp [hb] at h1
    have hwf : writeField s = s := by
      simp [writeField, hq]
    rw [hwf]
    cases s with
    | nil =>
        simp only [List.nil_append]
        rcases hr with h0 | ⟨r', h1 | h1⟩
        · subst h0; rfl
        · subst h1
          simp [parseFieldRaw, List.takeWhile_cons, List.dropWhile_cons, fieldEnd]
        · subst h1
          simp [parseFieldRaw, List.takeWhile_cons, List.dropWhile_cons, fieldEnd]
    | cons c s'' =>
        have hcsp := hspec c (by simp)
        have hcq : c ≠ '"' := by
          intro he
          rw [he] at hcsp
          simp [isCsvSpecial] at hcsp
        have h2 := takeWhile_fieldEnd (c :: s'') rest hs hr
        rw [List.cons_append]
        simp only [parseFieldRaw, hcq, if_false]
        rw [← List.cons_append]
        exact Prod.ext h2.1 h2.2

theorem writeRecord_length (r : List (List Char)) :
    r.length ≤ (writeRecord r).length + 1 := by
  induction r with
  | nil => simp [writeRecord]
  | cons f fs ih =>
      cases fs with
      | nil => simp [writeRecord]
      | cons g gs =>
          have hw : writeRecord (f :: g :: gs) = writeField f ++ ',' :: writeRecord (g :: gs) := rfl
          rw [hw]
          simp only [List.length_append, List.length_cons] at ih ⊢
          omega

theorem parseRecordF_writeRecord (r : List (List Char)) (rest : List Char) (fuel : Nat)
    (hne : r ≠ []) (hfuel : r.length ≤ fuel) :
    parseRecordF fuel (writeRecord r ++ '\n' :: rest) = (r, rest) := by
  induction r generalizing fuel rest with
  | nil => exact absurd rfl hne
  | cons f fs ih =>
      cases fuel with
      | zero => simp at hfuel
      | succ fuel' =>
          cases fs with
          | nil =>
              have hw : writeRecord [f] = writeField f := rfl
              rw [hw]
              have hp := parseFieldRaw_writeField f ('\n' :: rest)
                (Or.inr ⟨rest, Or.inr rfl⟩)
              simp [parseRecordF, hp]
          | cons g gs =>
              have hw : writeRecord (f :: g :: gs)
                  = writeField f ++ ',' :: writeRecord (g :: gs) := rfl
              rw [hw]
              have hassoc : (writeField f ++ ',' :: writeRecord (g :: gs)) ++ '\n' :: rest
                  = writeField f ++ ',' :: (writeRecord (g :: gs) ++ '\n' :: rest) := by
                simp
              rw [hassoc]
              have hp := parseFieldRaw_writeField f
                (',' :: (writeRecord (g :: gs) ++ '\n' :: rest))
                (Or.inr ⟨_, Or.inl rfl⟩)
              have hrec := ih rest fuel' (by simp) (by simp at hfuel ⊢; omega)
              simp [parseRecordF, hp, hrec]

theorem writeCsv_cons (r : List (List Char)) (m : List (List (List Char))) :
    writeCsv (r :: m) = writeRecord r ++ '\n' :: writeCsv m := by
  simp [writeCsv, writeLine]

theorem parseCsvF_writeCsv (m : List (List (List Char))) (fuel : Nat)
    (hne : ∀ r ∈ m, r ≠ []) (hfuel : m.length ≤ fuel) :
    parseCsvF fuel (writeCsv m) = m := by
  induction m generalizing fuel with
  | nil =>
      cases fuel with
      | zero => rfl
      | succ fuel' => simp [parseCsvF, writeCsv]
  | cons r m' ih =>
      cases fuel with
      | zero => simp at hfuel
      | succ fuel' =>
          rw [writeCsv_cons]
          have hcs : writeRecord r ++ '\n' :: writeCsv m' ≠ [] := by simp
          have hlen : r.length ≤ (writeRecord r ++ '\n' :: writeCsv m').length + 1 := by
            have h1 := writeRecord_length r
            simp only [List.length_append, List.length_cons]
            omega
          have hrec := parseRecordF_writeRecord r (writeCsv m')
            ((writeRecord r ++ '\n' :: writeCsv m').length + 1)
            (hne r (by simp)) hlen
          have hih := ih fuel' (fun x hx => hne x (List.mem_cons_of_mem r hx))
            (by simp at hfuel ⊢; omega)
          simp only [parseCsvF]
          rw [if_neg hcs]
          simp only [hrec]
          exact congrArg (List.cons r) hih

theorem writeCsv_length (m : List (List (List Char))) :
    m.length ≤ (writeCsv m).length := by
  induction m with
  | nil => simp [writeCsv]
  | cons r m' ih =>
      rw [writeCsv_cons]
      simp only [List.length_append, List.length_cons]
      omega

theorem utf8EncodeChar_length_pos (m : Nat) : 1 ≤ (utf8EncodeChar m).length := by
  unfold utf8EncodeChar
  split_ifs <;> simp

theorem utf8Encode_length (s : List Char) : s.length ≤ (utf8Encode s).length := by
  induction s with
  | nil => simp [utf8Encode]
  | cons c s' ih =>
      have hstep : utf8Encode (c :: s') = utf8EncodeChar c.toNat ++ utf8Encode s' := by
        simp [utf8Encode]
      rw [hstep]
      have h1 := utf8EncodeChar_length_pos c.toNat
      simp only [List.length_append, List.length_cons]
      omega

theorem utf8DecodeF_encode (s : List Char) (fuel : Nat) (hfuel : s.length ≤ fuel) :
    utf8DecodeF fuel (utf8Encode s) = s := by
  induction s generalizing fuel with
  | nil =>
      cases fuel with
      | zero => rfl
      | succ f => rfl
  | cons c s' ih =>
      cases fuel with
      | zero => simp at hfuel
      | succ fuel' =>
          have hstep : utf8Encode (c :: s') = utf8EncodeChar c.toNat ++ utf8Encode s' := by
            simp [utf8Encode]
          rw [hstep]
          have hv := c.valid
          unfold UInt32.isValidChar Nat.isValidChar at hv
          have hv' : c.toNat < 0xd800 ∨ (0xe000 ≤ c.toNat ∧ c.toNat < 0x110000) := hv
          set n := c.toNat with hn
          have hih := ih fuel' (by simp at hfuel ⊢; omega)
          by_cases h1 : n < 0x80
          · have e1 : utf8EncodeChar n = [n] := by simp [utf8EncodeChar, h1]
            rw [e1, List.singleton_append]
            simp only [utf8DecodeF]
            rw [if_pos h1, hn, Char.ofNat_toNat, hih]
          · by_cases h2 : n < 0x800
            · have e1 : utf8EncodeChar n = [0xC0 + n / 64, 0x80 + n % 64] := by
                simp [utf8EncodeChar, h1, h2]
              rw [e1]
              have hb1a : ¬ (0xC0 + n / 64 < 0x80) := by omega
              have hb1b : ¬ (0xC0 + n / 64 < 0xC0) := by omega
              have hb1c : 0xC0 + n / 64 < 0xE0 := by omega
              simp only [List.cons_append, List.nil_append, utf8DecodeF]
              rw [if_neg hb1a, if_neg hb1b, if_pos hb1c]
              simp only [List.append_eq, List.cons_append, List.nil_append,
                List.headD_cons, List.drop_succ_cons, List.drop_zero]
              have hval : (0xC0 + n / 64 - 0xC0) * 64 + (0x80 + n % 64 - 0x80) = n := by
                omega
              rw [hval, hn, Char.ofNat_toNat, hih]
            · by_cases h3 : n < 0x10000
              · have e1 : utf8EncodeChar n
                    = [0xE0 + n / 4096, 0x80 + (n / 64) % 64, 0x80 + n % 64] := by
                  simp [utf8EncodeChar, h1, h2, h3]
                rw [e1]
                have hb1a : ¬ (0xE0 + n / 4096 < 0x80) := by omega
                have hb1b : ¬ (0xE0 + n / 4096 < 0xC0) := by omega
                have hb1c : ¬ (0xE0 + n / 4096 < 0xE0) := by omega
                have hb1d : 0xE0 + n / 4096 < 0xF0 := by omega
                simp only [List.cons_append, List.nil_append, utf8DecodeF]
                rw [if_neg hb1a, if_neg hb1b, if_neg hb1c, if_pos hb1d]
                simp only [List.append_eq, List.cons_append, List.nil_append,
                List.headD_cons, List.drop_succ_cons, List.drop_zero]
                have hval : (0xE0 + n / 4096 - 0xE0) * 4096
                    + (0x80 + (n / 64) % 64 - 0x80) * 64 + (0x80 + n % 64 - 0x80) = n := by
                  omega
                rw [hval, hn, Char.ofNat_toNat, hih]
              · have e1 : utf8EncodeChar n
                    = [0xF0 + n / 262144, 0x80 + (n / 4096) % 64, 0x80 + (n / 64) % 64,
                       0x80 + n % 64] := by
                  simp [utf8EncodeChar, h1, h2, h3]
                rw [e1]
                have hb1a : ¬ (0xF0 + n / 262144 < 0x80) := by omega
                have hb1b : ¬ (0xF0 + n / 262144 < 0xC0) := by omega
                have hb1c : ¬ (0xF0 + n / 262144 < 0xE0) := by omega
                have hb1d : ¬ (0xF0 + n / 262144 < 0xF0) := by omega
                simp only [List.cons_append, List.nil_append, utf8DecodeF]
                rw [if_neg hb1a, if_neg hb1b, if_neg hb1c, if_neg hb1d]
                simp only [List.append_eq, List.cons_append, List.nil_append,
                List.headD_cons, List.drop_succ_cons, List.drop_zero]
                have hval : (0xF0 + n / 262144 - 0xF0) * 262144
                    + (0x80 + (n / 4096) % 64 - 0x80) * 4096
                    + (0x80 + (n / 64) % 64 - 0x80) * 64 + (0x80 + n % 64 - 0x80) = n := by
                  omega
                rw [hval, hn, Char.ofNat_toNat, hih]

theorem utf8_decode_encode (s : List Char) : utf8Decode (utf8Encode s) = s := by
  unfold utf8Decode
  exact utf8DecodeF_encode s (utf8Encode s).length (utf8Encode_length s)

/-- C8: for every table (with at least one column), the CSV serializer
emits the UTF-8 encoding of a comma-separated text with a header row and
no index column, and re-parsing those bytes as comma-separated delimited
text yields exactly the header row of column names followed by each data
row's cells in their rendered (type-to-string) form. -/
theorem convert_df_to_csv_bytes_round_trip (cols : List String) (t : Table)
    (h : cols ≠ []) :
    parseCsv (utf8Decode (convert_df_to_csv_bytes cols t)) = csvMatrix cols t := by
  unfold convert_df_to_csv_bytes
  rw [utf8_decode_encode]
  unfold df_to_csv parseCsv
  apply parseCsvF_writeCsv
  · intro r hr
    rcases List.mem_cons.mp hr with h1 | h1
    · subst h1
      simpa using h
    · obtain ⟨e, _, rfl⟩ := List.mem_map.mp h1
      simpa using h
  · exact le_trans (writeCsv_length _) (Nat.le_succ _)

def T8w : Table :=
  [(0, [("age", Value.int 42), ("y", Value.str "no"), ("job", Value.str "ad,min\x22x")]),
   (1, [("y", Value.missing), ("job", Value.str "services")])]

/-- Witness for C8: a two-row table whose cells include an integer, a
missing value, and a string containing a comma and a quote (so the
quoting path is exercised) survives the serialize-then-reparse round
trip. -/
theorem convert_df_to_csv_bytes_round_trip_witness :
    (["age", "y", "job"] : List String) ≠ []
    ∧ parseCsv (utf8Decode (convert_df_to_csv_bytes ["age", "y", "job"] T8w))
        = csvMatrix ["age", "y", "job"] T8w :=
  ⟨by decide, convert_df_to_csv_bytes_round_trip ["age", "y", "job"] T8w (by decide)⟩
